import Mathlib

/-!
Shallow embedding of the BitHive relayer example repository's deposit-lifecycle
polling core (`src/utils/relayer.ts`) together with the CLI dispatcher
(`src/index.ts`) and the withdraw/unstake operations, and proofs of the
specification claims about them.

Remote interactions are modelled as explicit oracles:
* `pre : Deposit → String` — the status returned by the one-shot
  `queryDeposits` precondition query;
* `σ : Nat → Deposit → String` — the status returned by `relayer.user.getDeposit`
  during polling round `k` (rounds are numbered from 0);
* `elapsed : Nat → Nat` — the value of `Date.now() - startTime` observed by the
  timeout check at the start of polling round `k`.  The code sleeps
  `DEFAULT_WAIT_INTERVAL` milliseconds between consecutive rounds, so a faithful
  trace satisfies `elapsed k + DEFAULT_WAIT_INTERVAL ≤ elapsed (k+1)`.

The `while (true)` loop is embedded as a fuel-indexed recursion; the fuel
`timeout / DEFAULT_WAIT_INTERVAL + 2` is provably sufficient for every trace
satisfying the sleep lower bound above (see the timeout theorems), so the
`outOfFuel` constructor is unreachable on faithful traces.
-/

namespace BitHive

/-- A deposit reference `(txHash, vout)` (type `Deposit` in `relayer.ts`). -/
structure Deposit where
  txHash : String
  vout : Nat
deriving DecidableEq, Repr

/-- The union type `Deposits = Deposit[] | string | string[]` of `relayer.ts`,
as a tagged variant. -/
inductive DepositsInput where
  | single (txHash : String)
  | hashes (hs : List String)
  | items (ds : List Deposit)
deriving DecidableEq, Repr

/-- `DEFAULT_WAIT_INTERVAL = 2 * 60 * 1000` ms (2 minutes). -/
def DEFAULT_WAIT_INTERVAL : Nat := 2 * 60 * 1000

/-- `DEFAULT_WAIT_TIMEOUT = 60 * 60 * 1000` ms (1 hour). -/
def DEFAULT_WAIT_TIMEOUT : Nat := 60 * 60 * 1000

/-- `parseDepositsInput` of `relayer.ts`: a single tx hash becomes one pair
with vout 0, a list of hashes becomes one pair per hash with vout 0, and a
list of explicit pairs is passed through unchanged. -/
def parseDepositsInput : DepositsInput → List Deposit
  | .single s => [⟨s, 0⟩]
  | .hashes hs => hs.map (fun h => ⟨h, 0⟩)
  | .items ds => ds

/-- The part of the deposit record returned by `relayer.user.getDeposit` that
the example code reads: `depositTxHash` and `status`. -/
structure DepositRecord where
  depositTxHash : String
  status : String
deriving DecidableEq, Repr

/-- `queryDeposits` of `relayer.ts`: one `getDeposit` call per reference
(the service answers for the queried tx hash with its current status,
modelled by the oracle `pre`). -/
def queryDeposits (pre : Deposit → String) (ds : List Deposit) :
    List DepositRecord :=
  ds.map (fun d => ⟨d.txHash, pre d⟩)

/-- Classification buckets of one polling round. -/
inductive Bucket where
  | success
  | pending
  | failure
  | invalid
deriving DecidableEq, Repr

/-- Final counters of a wait call.  `waitUntilStaked` and `waitUntilWithdrawn`
use all three fields; `waitUntilUnstaked` has no failure branch, so its
`failure` field stays 0. -/
structure Counts where
  failure : Nat
  success : Nat
  invalid : Nat
deriving DecidableEq, Repr

/-- The status classification of the `waitUntilStaked` loop body:
`DepositConfirmed`/`DepositConfirmedInvalid` → success, `DepositProcessing` →
pending, `DepositFailed` → failure, anything else → invalid. -/
def classifyStake (s : String) : Bucket :=
  if ["DepositConfirmed", "DepositConfirmedInvalid"].contains s then .success
  else if ["DepositProcessing"].contains s then .pending
  else if ["DepositFailed"].contains s then .failure
  else .invalid

/-- The status classification of the `waitUntilUnstaked` loop body:
`UnstakeConfirmed`/`ChainSignProcessing` → success, `UnstakeProcessing` →
pending, anything else → invalid (there is no failure branch). -/
def classifyUnstake (s : String) : Bucket :=
  if ["UnstakeConfirmed", "ChainSignProcessing"].contains s then .success
  else if ["UnstakeProcessing"].contains s then .pending
  else .invalid

/-- The status classification of the `waitUntilWithdrawn` loop body:
`WithdrawConfirmed` → success, `WithdrawProcessing` → pending,
`WithdrawFailed` → failure, anything else → invalid. -/
def classifyWithdraw (s : String) : Bucket :=
  if ["WithdrawConfirmed"].contains s then .success
  else if ["WithdrawProcessing"].contains s then .pending
  else if ["WithdrawFailed"].contains s then .failure
  else .invalid

/-- One polling round: the `for (const _deposit of _deposits)` body.  Each
deposit is re-queried (status given by `status`), classified, and either
counted in its terminal bucket or kept (in order) in the next pending list. -/
def processRound (classify : String → Bucket) (status : Deposit → String) :
    List Deposit → Counts → List Deposit × Counts
  | [], c => ([], c)
  | d :: rest, c =>
    match classify (status d) with
    | .success => processRound classify status rest
        { c with success := c.success + 1 }
    | .pending =>
        let (p, c') := processRound classify status rest c
        (d :: p, c')
    | .failure => processRound classify status rest
        { c with failure := c.failure + 1 }
    | .invalid => processRound classify status rest
        { c with invalid := c.invalid + 1 }

/-- Result of a wait call.  `notFound` and `notStarted` are the two
precondition errors thrown before the polling loop (hence with no round run
and no sleep); `timeoutReached` carries the deposits still pending at the
raise and the number of completed rounds (equal to the number of sleeps
performed); `completed` carries the final counters and the number of rounds
run (the last round is not followed by a sleep); `outOfFuel` is the fuel
artifact, unreachable on traces respecting the sleep interval. -/
inductive WaitOutcome where
  | notFound
  | notStarted (txHash status : String)
  | timeoutReached (timeout : Nat) (stillPending : List Deposit) (rounds : Nat)
  | completed (counts : Counts) (rounds : Nat)
  | outOfFuel (stillPending : List Deposit)
deriving DecidableEq, Repr

/-- The `while (true)` polling loop shared by the three wait functions.
At the start of round `r` it first checks `Date.now() - startTime > timeout`
(strict), then queries and classifies every still-pending deposit, breaks
when no deposit remains pending, and otherwise sleeps and loops. -/
def waitLoop (classify : String → Bucket) (σ : Nat → Deposit → String)
    (elapsed : Nat → Nat) (timeout : Nat) :
    Nat → Nat → List Deposit → Counts → WaitOutcome
  | 0, _, pending, _ => .outOfFuel pending
  | fuel + 1, round, pending, c =>
    if elapsed round > timeout then .timeoutReached timeout pending round
    else
      let (pendingNext, cNext) := processRound classify (σ round) pending c
      if pendingNext.isEmpty then .completed cNext (round + 1)
      else waitLoop classify σ elapsed timeout fuel (round + 1) pendingNext cNext

/-- Fuel sufficient for any trace whose elapsed time grows by at least
`DEFAULT_WAIT_INTERVAL` per round within a wait bounded by `timeout`. -/
def waitFuel (timeout : Nat) : Nat := timeout / DEFAULT_WAIT_INTERVAL + 2

/-- `waitUntilStaked` of `relayer.ts`: parse the input, query all deposits
once, fail on an empty result or on any deposit whose status is not
`DepositProcessing` (naming the first such deposit), then poll. -/
def waitUntilStaked (pre : Deposit → String) (σ : Nat → Deposit → String)
    (elapsed : Nat → Nat) (timeout : Nat) (deposits : DepositsInput) :
    WaitOutcome :=
  let ds := parseDepositsInput deposits
  let data := queryDeposits pre ds
  if data.length == 0 then .notFound
  else
    match data.find? (fun r => r.status != "DepositProcessing") with
    | some r => .notStarted r.depositTxHash r.status
    | none => waitLoop classifyStake σ elapsed timeout (waitFuel timeout) 0 ds
        ⟨0, 0, 0⟩

/-- `waitUntilUnstaked` of `relayer.ts` (deposit-reference form): pending
status `UnstakeProcessing`, no failure bucket. -/
def waitUntilUnstaked (pre : Deposit → String) (σ : Nat → Deposit → String)
    (elapsed : Nat → Nat) (timeout : Nat) (deposits : DepositsInput) :
    WaitOutcome :=
  let ds := parseDepositsInput deposits
  let data := queryDeposits pre ds
  if data.length == 0 then .notFound
  else
    match data.find? (fun r => r.status != "UnstakeProcessing") with
    | some r => .notStarted r.depositTxHash r.status
    | none => waitLoop classifyUnstake σ elapsed timeout (waitFuel timeout) 0 ds
        ⟨0, 0, 0⟩

/-- `waitUntilWithdrawn` of `relayer.ts`: pending status `WithdrawProcessing`. -/
def waitUntilWithdrawn (pre : Deposit → String) (σ : Nat → Deposit → String)
    (elapsed : Nat → Nat) (timeout : Nat) (deposits : DepositsInput) :
    WaitOutcome :=
  let ds := parseDepositsInput deposits
  let data := queryDeposits pre ds
  if data.length == 0 then .notFound
  else
    match data.find? (fun r => r.status != "WithdrawProcessing") with
    | some r => .notStarted r.depositTxHash r.status
    | none => waitLoop classifyWithdraw σ elapsed timeout (waitFuel timeout) 0 ds
        ⟨0, 0, 0⟩

/-- Result of the `unstake` operation (not the wait): the two precondition
errors, the missing-capability error `signMessage is not supported`, and the
successful submission carrying the deposits and the wallet signature sent to
`relayer.unstake.submitSignature`. -/
inductive UnstakeResult where
  | notFound
  | notReady (txHash status : String)
  | noSignMessage
  | submitted (deposits : List Deposit) (signature : String)
deriving DecidableEq, Repr

/-- `unstake` of `relayer.ts`: parse, query, fail on empty result, fail on
the first deposit whose status is outside
`[DepositConfirmed, DepositConfirmedInvalid]`, then (if the provider can sign
messages) build the unsigned message, sign it and submit the signature.
The remote message builder and the wallet signer are abstract functions. -/
def unstake (pre : Deposit → String) (signMessage : Option (String → String))
    (buildUnsignedMessage : List Deposit → String) (deposits : DepositsInput) :
    UnstakeResult :=
  let ds := parseDepositsInput deposits
  let data := queryDeposits pre ds
  if data.length == 0 then .notFound
  else
    match data.find?
        (fun r =>
          !(["DepositConfirmed", "DepositConfirmedInvalid"].contains
            r.status)) with
    | some r => .notReady r.depositTxHash r.status
    | none =>
      match signMessage with
      | some sign => .submitted ds (sign (buildUnsignedMessage ds))
      | none => .noSignMessage

/-- The `account.pendingSignPsbt` record read by `withdraw` (only its `psbt`
field is used). -/
structure PendingSignPsbt where
  psbt : String
deriving DecidableEq, Repr

/-- The account record returned by `relayer.user.getAccount`, restricted to
the field `withdraw` reads. -/
structure Account where
  pendingSignPsbt : Option PendingSignPsbt
deriving DecidableEq, Repr

/-- Result of the `withdraw` operation: the two precondition errors, the
missing-capability error `signPsbt is not supported`, and the successful path
`broadcast usedPendingPsbt psbtToChainSign txHash` recording whether the
account's pending PSBT was reused (`true`) or a freshly built and locally
signed PSBT was used (`false`), which PSBT was handed to the asynchronous
chain-signing step, and the final broadcast tx hash. -/
inductive WithdrawResult where
  | notFound
  | notReady (txHash status : String)
  | noSignPsbt
  | broadcast (usedPendingPsbt : Bool) (psbtToChainSign : String)
      (txHash : String)
deriving DecidableEq, Repr

/-- `withdraw` of `relayer.ts`: parse, query, fail on empty result, fail on
the first deposit whose status is outside
`[UnstakeConfirmed, ChainSignProcessing]`; then query the account: if it has
a `pendingSignPsbt`, that PSBT is used as-is (no new build, no local
signing); otherwise (if the provider can sign PSBTs) build a new unsigned
PSBT and sign it locally without finalizing.  Either way the resulting PSBT
goes to `chainSignPsbtAsync`/`pollChainSignedPsbt` (composed into
`chainSignPsbt`) and then to `submitFinalizedPsbt`. -/
def withdraw (pre : Deposit → String) (account : Account)
    (signPsbt : Option (String → String))
    (buildUnsignedPsbt : List Deposit → String)
    (chainSignPsbt : String → String) (submitFinalizedPsbt : String → String)
    (deposits : DepositsInput) : WithdrawResult :=
  let ds := parseDepositsInput deposits
  let data := queryDeposits pre ds
  if data.length == 0 then .notFound
  else
    match data.find?
        (fun r =>
          !(["UnstakeConfirmed", "ChainSignProcessing"].contains r.status)) with
    | some r => .notReady r.depositTxHash r.status
    | none =>
      match account.pendingSignPsbt with
      | some pending =>
        .broadcast true pending.psbt
          (submitFinalizedPsbt (chainSignPsbt pending.psbt))
      | none =>
        match signPsbt with
        | some sign =>
          let partiallySignedPsbt := sign (buildUnsignedPsbt ds)
          .broadcast false partiallySignedPsbt
            (submitFinalizedPsbt (chainSignPsbt partiallySignedPsbt))
        | none => .noSignPsbt

/-- The six named example scenarios of the CLI entry point
(`src/unnamed/part_000`, the entry-point variant that includes
`partial-withdrawal`, consistent with `src/example/partial-withdrawal.ts`). -/
inductive ExampleScenario where
  | stake
  | unstake
  | fee
  | staker
  | deposits
  | partialWithdrawal
deriving DecidableEq, Repr

/-- What `main` does: run one scenario, or print `Invalid example` to
standard error and perform no operation. -/
inductive MainAction where
  | runScenario (s : ExampleScenario)
  | invalidExample
deriving DecidableEq, Repr

/-- `main` of the entry point: reads `args[0]` (`none` when no argument was
given) and dispatches through the if/else chain. -/
def mainDispatch (args : List String) : MainAction :=
  let exampleArg := args.head?
  if exampleArg == some "stake" then .runScenario .stake
  else if exampleArg == some "unstake" then .runScenario .unstake
  else if exampleArg == some "fee" then .runScenario .fee
  else if exampleArg == some "staker" then .runScenario .staker
  else if exampleArg == some "deposits" then .runScenario .deposits
  else if exampleArg == some "partial-withdrawal" then
    .runScenario .partialWithdrawal
  else .invalidExample

/-- Modelled from the spec: the relayer-module variant defining
`WithdrawalInput` (imported by the `BitHiveStaker` variant in
`src/unnamed/part_005` but absent from the snapshot) lets unstake be
addressed either by deposit references or by a plain BTC amount in sats
(spec §3, §4.1). -/
inductive WithdrawalInput where
  | byDeposits (d : DepositsInput)
  | byAmount (sats : Int)
deriving DecidableEq, Repr

/-- Modelled from the spec: outcome of the amount-aware unstake wait —
a zero/negative amount is rejected before any remote call
(`invalidAmount`), a positive amount is delegated entirely to the remote
service's amount-based wait primitive (`delegated` carries that primitive's
outcome), and deposit references go through the per-deposit polling wait
(`polled`). -/
inductive UnstakeWaitResult where
  | invalidAmount (sats : Int)
  | delegated (remoteOutcome : String)
  | polled (w : WaitOutcome)
deriving DecidableEq, Repr

/-- Modelled from the spec: the amount-aware `waitUntilUnstaked` of the
missing relayer variant.  Per spec §4.1 "delegate entirely to the remote
service's own amount-based wait primitive rather than polling individual
deposits" and §8 "A zero or negative amount is rejected before any remote
call". -/
def waitUntilUnstakedInput (remoteWaitByAmount : Int → String)
    (pre : Deposit → String) (σ : Nat → Deposit → String)
    (elapsed : Nat → Nat) (timeout : Nat) :
    WithdrawalInput → UnstakeWaitResult
  | .byAmount sats =>
    if sats ≤ 0 then .invalidAmount sats
    else .delegated (remoteWaitByAmount sats)
  | .byDeposits d => .polled (waitUntilUnstaked pre σ elapsed timeout d)

end BitHive

namespace BitHive

/-- CLAIM C4: `parseDepositsInput` maps a single hash string `s` to
`[(s, 0)]`, a list of strings to the order-preserving list of `(hash, 0)`
pairs, and a list of explicit pairs to itself; consequently a bare hash, the
singleton hash list, and the singleton explicit-pair list all normalize to
the same deposit-reference list. -/
theorem parseDepositsInput_spec :
    (∀ s : String, parseDepositsInput (.single s) = [⟨s, 0⟩]) ∧
    (∀ hs : List String,
      parseDepositsInput (.hashes hs) = hs.map (fun h => ⟨h, 0⟩)) ∧
    (∀ ds : List Deposit, parseDepositsInput (.items ds) = ds) ∧
    (∀ s : String,
      parseDepositsInput (.single s) = parseDepositsInput (.hashes [s]) ∧
      parseDepositsInput (.single s) =
        parseDepositsInput (.items [⟨s, 0⟩])) := by
  refine ⟨fun s => rfl, fun hs => rfl, fun ds => rfl, fun s => ⟨rfl, rfl⟩⟩

end BitHive

namespace BitHive

theorem queryDeposits_length (pre : Deposit → String) (ds : List Deposit) :
    (queryDeposits pre ds).length = ds.length := by
  simp [queryDeposits]

theorem queryDeposits_find?_eq_none (pre : Deposit → String)
    (p : DepositRecord → Bool) (ds : List Deposit)
    (h : ∀ d ∈ ds, p ⟨d.txHash, pre d⟩ = false) :
    (queryDeposits pre ds).find? p = none := by
  rw [queryDeposits, List.find?_map]
  have hnone : ds.find? (p ∘ fun d => (⟨d.txHash, pre d⟩ : DepositRecord))
      = none := by
    rw [List.find?_eq_none]
    intro d hd
    simp only [Function.comp_apply, h d hd, Bool.false_eq_true,
      not_false_eq_true]
  rw [hnone]
  rfl

theorem queryDeposits_find?_eq_some (pre : Deposit → String)
    (p : DepositRecord → Bool) (ds : List Deposit) (d : Deposit)
    (h : ds.find? (fun d => p ⟨d.txHash, pre d⟩) = some d) :
    (queryDeposits pre ds).find? p = some ⟨d.txHash, pre d⟩ := by
  rw [queryDeposits, List.find?_map]
  have hc : (p ∘ fun d => (⟨d.txHash, pre d⟩ : DepositRecord))
      = fun d => p ⟨d.txHash, pre d⟩ := rfl
  rw [hc, h]
  rfl

theorem queryDeposits_length_bne (pre : Deposit → String) (ds : List Deposit)
    (hne : ds ≠ []) : ((queryDeposits pre ds).length == 0) = false := by
  simp only [queryDeposits_length, beq_iff_eq, List.length_eq_zero]
  simpa using hne

/-- CLAIM C7: the CLI entry point, given one positional argument among
`stake`, `unstake`, `fee`, `staker`, `deposits`, `partial-withdrawal`, runs
the correspondingly named example scenario; given any other argument —
including none at all — it prints an error to standard error
(`invalidExample`) and performs no operation. -/
theorem mainDispatch_spec :
    ∀ rest : List String,
      mainDispatch ("stake" :: rest) = .runScenario .stake ∧
      mainDispatch ("unstake" :: rest) = .runScenario .unstake ∧
      mainDispatch ("fee" :: rest) = .runScenario .fee ∧
      mainDispatch ("staker" :: rest) = .runScenario .staker ∧
      mainDispatch ("deposits" :: rest) = .runScenario .deposits ∧
      mainDispatch ("partial-withdrawal" :: rest) =
        .runScenario .partialWithdrawal ∧
      (∀ e : String,
        e ∉ ["stake", "unstake", "fee", "staker", "deposits",
          "partial-withdrawal"] →
        mainDispatch (e :: rest) = .invalidExample) ∧
      mainDispatch [] = .invalidExample := by
  intro rest
  refine ⟨rfl, rfl, rfl, rfl, rfl, rfl, ?_, rfl⟩
  intro e he
  simp only [List.mem_cons, List.mem_singleton, not_or,
    List.not_mem_nil, or_false] at he
  obtain ⟨h1, h2, h3, h4, h5, h6⟩ := he
  simp [mainDispatch, h1, h2, h3, h4, h5, h6]

theorem mainDispatch_spec_witness :
    mainDispatch ["partial-withdrawal"] = .runScenario .partialWithdrawal ∧
    "bogus" ∉ ["stake", "unstake", "fee", "staker", "deposits",
      "partial-withdrawal"] ∧
    mainDispatch ["bogus"] = .invalidExample :=
  ⟨(mainDispatch_spec []).2.2.2.2.2.1, by decide,
    (mainDispatch_spec []).2.2.2.2.2.2.1 "bogus" (by decide)⟩

/-- CLAIM C6: when the account returned by the account query carries a
pending unsigned/partially-signed PSBT, `withdraw` neither builds a new
withdrawal PSBT nor signs locally: the pending PSBT itself is handed to
asynchronous chain signing (the result is the same for every builder and
every local signer capability, which appear nowhere in it).  A fresh PSBT is
built and locally signed only when the account has no pending PSBT. -/
theorem withdraw_pending_psbt_spec (pre : Deposit → String)
    (p : PendingSignPsbt) (signPsbt : Option (String → String))
    (buildUnsignedPsbt : List Deposit → String)
    (chainSignPsbt submitFinalizedPsbt : String → String)
    (signF : String → String) (deposits : DepositsInput)
    (hne : parseDepositsInput deposits ≠ [])
    (hready : ∀ d ∈ parseDepositsInput deposits,
      pre d = "UnstakeConfirmed" ∨ pre d = "ChainSignProcessing") :
    withdraw pre ⟨some p⟩ signPsbt buildUnsignedPsbt chainSignPsbt
        submitFinalizedPsbt deposits =
      .broadcast true p.psbt (submitFinalizedPsbt (chainSignPsbt p.psbt)) ∧
    withdraw pre ⟨none⟩ (some signF) buildUnsignedPsbt chainSignPsbt
        submitFinalizedPsbt deposits =
      .broadcast false (signF (buildUnsignedPsbt (parseDepositsInput deposits)))
        (submitFinalizedPsbt (chainSignPsbt
          (signF (buildUnsignedPsbt (parseDepositsInput deposits))))) := by
  have hlen := queryDeposits_length_bne pre (parseDepositsInput deposits) hne
  have hfind : (queryDeposits pre (parseDepositsInput deposits)).find?
      (fun r =>
        !(["UnstakeConfirmed", "ChainSignProcessing"].contains r.status))
      = none := by
    refine queryDeposits_find?_eq_none pre _ _ (fun d hd => ?_)
    rcases hready d hd with h | h <;> simp [h]
  constructor <;>
    simp only [withdraw, hlen, Bool.false_eq_true, if_false, hfind]

theorem withdraw_pending_psbt_spec_witness :
    withdraw (fun _ => "UnstakeConfirmed") ⟨some ⟨"PSBT"⟩⟩ none (fun _ => "B")
      (fun s => s) (fun s => s) (.single "tx") =
      .broadcast true "PSBT" "PSBT" ∧
    withdraw (fun _ => "UnstakeConfirmed") ⟨none⟩ (some (fun _ => "W"))
      (fun _ => "B") (fun s => s) (fun s => s) (.single "tx") =
      .broadcast false "W" "W" :=
  withdraw_pending_psbt_spec (fun _ => "UnstakeConfirmed") ⟨"PSBT"⟩ none
    (fun _ => "B") (fun s => s) (fun s => s) (fun _ => "W") (.single "tx")
    (by decide) (fun d _ => Or.inl rfl)

/-- CLAIM C5: when the unstake input is a positive amount in sats, the
amount-aware waiter delegates entirely to the remote amount-based wait
primitive — the result is `delegated` with that primitive's outcome, and it
does not depend on the per-deposit status oracles or the clock (no
per-deposit polling); a zero or negative amount yields the rejection result
for every remote primitive, i.e. before any remote call.
(The deciding code is the missing relayer variant; `waitUntilUnstakedInput`
is modelled from the spec.) -/
theorem unstake_amount_delegation_spec (remoteWait remoteWait' : Int → String)
    (pre : Deposit → String) (σ : Nat → Deposit → String)
    (elapsed : Nat → Nat) (timeout : Nat) (sats : Int) :
    (0 < sats →
      waitUntilUnstakedInput remoteWait pre σ elapsed timeout
        (.byAmount sats) = .delegated (remoteWait sats)) ∧
    (sats ≤ 0 →
      waitUntilUnstakedInput remoteWait pre σ elapsed timeout
          (.byAmount sats) = .invalidAmount sats ∧
      waitUntilUnstakedInput remoteWait pre σ elapsed timeout
          (.byAmount sats) =
        waitUntilUnstakedInput remoteWait' pre σ elapsed timeout
          (.byAmount sats)) := by
  constructor
  · intro h
    simp [waitUntilUnstakedInput, not_le.mpr h]
  · intro h
    simp [waitUntilUnstakedInput, h]

theorem unstake_amount_delegation_spec_witness :
    ((0 : Int) < 1 ∧
      waitUntilUnstakedInput (fun _ => "REMOTE") (fun _ => "") (fun _ _ => "")
        (fun _ => 0) 0 (.byAmount 1) = .delegated "REMOTE") ∧
    ((0 : Int) ≤ 0 ∧
      waitUntilUnstakedInput (fun _ => "REMOTE") (fun _ => "") (fun _ _ => "")
        (fun _ => 0) 0 (.byAmount 0) = .invalidAmount 0) :=
  ⟨⟨by decide,
      (unstake_amount_delegation_spec (fun _ => "REMOTE") (fun _ => "R2")
        (fun _ => "") (fun _ _ => "") (fun _ => 0) 0 1).1 (by decide)⟩,
    ⟨by decide,
      ((unstake_amount_delegation_spec (fun _ => "REMOTE") (fun _ => "R2")
        (fun _ => "") (fun _ _ => "") (fun _ => 0) 0 0).2 (by decide)).1⟩⟩

theorem waitLoop_zero (classify : String → Bucket) (σ : Nat → Deposit → String)
    (elapsed : Nat → Nat) (timeout : Nat) (r : Nat) (pending : List Deposit)
    (c : Counts) :
    waitLoop classify σ elapsed timeout 0 r pending c = .outOfFuel pending :=
  rfl

theorem waitLoop_succ (classify : String → Bucket) (σ : Nat → Deposit → String)
    (elapsed : Nat → Nat) (timeout fuel r : Nat) (pending : List Deposit)
    (c : Counts) :
    waitLoop classify σ elapsed timeout (fuel + 1) r pending c =
      if timeout < elapsed r then .timeoutReached timeout pending r
      else if (processRound classify (σ r) pending c).1.isEmpty then
        .completed (processRound classify (σ r) pending c).2 (r + 1)
      else
        waitLoop classify σ elapsed timeout fuel (r + 1)
          (processRound classify (σ r) pending c).1
          (processRound classify (σ r) pending c).2 := by
  cases hpc : processRound classify (σ r) pending c with
  | mk p c2 => rw [waitLoop, hpc]

theorem processRound_all_pending (classify : String → Bucket)
    (status : Deposit → String) :
    ∀ (ds : List Deposit) (c : Counts),
      (∀ d ∈ ds, classify (status d) = .pending) →
      processRound classify status ds c = (ds, c) := by
  intro ds
  induction ds with
  | nil => intro c _; rfl
  | cons e rest ih =>
    intro c h
    have he := h e (by simp)
    rw [processRound, he]
    have := ih c (fun d hd => h d (by simp [hd]))
    simp [this]

theorem mem_processRound (classify : String → Bucket)
    (status : Deposit → String) :
    ∀ (ds : List Deposit) (c : Counts) (d : Deposit),
      d ∈ (processRound classify status ds c).1 ↔
        d ∈ ds ∧ classify (status d) = .pending := by
  intro ds
  induction ds with
  | nil => intro c d; simp [processRound]
  | cons e rest ih =>
    intro c d
    cases hcl : classify (status e) with
    | pending =>
      rw [processRound, hcl]
      simp only [List.mem_cons]
      constructor
      · intro h
        rcases h with h | h
        · subst h; exact ⟨Or.inl rfl, hcl⟩
        · have := (ih c d).mp h
          exact ⟨Or.inr this.1, this.2⟩
      · rintro ⟨h | h, hc⟩
        · subst h; exact Or.inl rfl
        · exact Or.inr ((ih c d).mpr ⟨h, hc⟩)
    | success =>
      rw [processRound, hcl]
      simp only [List.mem_cons, ih]
      constructor
      · rintro ⟨h, hc⟩; exact ⟨Or.inr h, hc⟩
      · rintro ⟨h | h, hc⟩
        · subst h; rw [hcl] at hc; cases hc
        · exact ⟨h, hc⟩
    | failure =>
      rw [processRound, hcl]
      simp only [List.mem_cons, ih]
      constructor
      · rintro ⟨h, hc⟩; exact ⟨Or.inr h, hc⟩
      · rintro ⟨h | h, hc⟩
        · subst h; rw [hcl] at hc; cases hc
        · exact ⟨h, hc⟩
    | invalid =>
      rw [processRound, hcl]
      simp only [List.mem_cons, ih]
      constructor
      · rintro ⟨h, hc⟩; exact ⟨Or.inr h, hc⟩
      · rintro ⟨h | h, hc⟩
        · subst h; rw [hcl] at hc; cases hc
        · exact ⟨h, hc⟩

theorem processRound_counts (classify : String → Bucket)
    (status : Deposit → String) :
    ∀ (ds : List Deposit) (c : Counts),
      (processRound classify status ds c).1.length +
          ((processRound classify status ds c).2.failure +
            (processRound classify status ds c).2.success +
            (processRound classify status ds c).2.invalid) =
        ds.length + (c.failure + c.success + c.invalid) := by
  intro ds
  induction ds with
  | nil => intro c; simp [processRound]
  | cons e rest ih =>
    intro c
    cases hcl : classify (status e) with
    | pending =>
      rw [processRound, hcl]
      have := ih c
      simp only [List.length_cons]
      cases hpc : processRound classify status rest c with
      | mk p c2 =>
        rw [hpc] at this
        simp only [hpc]
        simp only at this
        omega
    | success =>
      rw [processRound, hcl]
      have := ih { c with success := c.success + 1 }
      simp only [List.length_cons]
      simp only at this
      omega
    | failure =>
      rw [processRound, hcl]
      have := ih { c with failure := c.failure + 1 }
      simp only [List.length_cons]
      simp only at this
      omega
    | invalid =>
      rw [processRound, hcl]
      have := ih { c with invalid := c.invalid + 1 }
      simp only [List.length_cons]
      simp only at this
      omega

theorem processRound_no_failure (classify : String → Bucket)
    (status : Deposit → String) (hcl : ∀ s, classify s ≠ .failure) :
    ∀ (ds : List Deposit) (c : Counts),
      (processRound classify status ds c).2.failure = c.failure := by
  intro ds
  induction ds with
  | nil => intro c; rfl
  | cons e rest ih =>
    intro c
    cases h : classify (status e) with
    | pending =>
      rw [processRound, h]
      cases hpc : processRound classify status rest c with
      | mk p c2 =>
        have := ih c
        rw [hpc] at this
        simpa using this
    | success => rw [processRound, h]; exact ih _
    | failure => exact absurd h (hcl _)
    | invalid => rw [processRound, h]; exact ih _

theorem elapsed_mono (elapsed : Nat → Nat)
    (hstep : ∀ k, elapsed k + DEFAULT_WAIT_INTERVAL ≤ elapsed (k + 1)) :
    ∀ i j, i ≤ j → elapsed i ≤ elapsed j := by
  have haux : ∀ i n, elapsed i ≤ elapsed (i + n) := by
    intro i n
    induction n with
    | zero => simp
    | succ m ih =>
      have := hstep (i + m)
      calc elapsed i ≤ elapsed (i + m) := ih
        _ ≤ elapsed (i + m + 1) := by omega
  intro i j hij
  have := haux i (j - i)
  rwa [show i + (j - i) = j from by omega] at this

theorem elapsed_lower (elapsed : Nat → Nat)
    (hstep : ∀ k, elapsed k + DEFAULT_WAIT_INTERVAL ≤ elapsed (k + 1)) :
    ∀ k, k * DEFAULT_WAIT_INTERVAL ≤ elapsed k := by
  intro k
  induction k with
  | zero => simp
  | succ n ih =>
    have := hstep n
    have hmul : (n + 1) * DEFAULT_WAIT_INTERVAL =
        n * DEFAULT_WAIT_INTERVAL + DEFAULT_WAIT_INTERVAL := by ring
    omega

theorem exists_timeout_round (elapsed : Nat → Nat) (timeout : Nat)
    (hstep : ∀ k, elapsed k + DEFAULT_WAIT_INTERVAL ≤ elapsed (k + 1)) :
    ∃ j, j < waitFuel timeout ∧ timeout < elapsed j := by
  refine ⟨timeout / DEFAULT_WAIT_INTERVAL + 1, by simp [waitFuel], ?_⟩
  have hlow := elapsed_lower elapsed hstep (timeout / DEFAULT_WAIT_INTERVAL + 1)
  have harith : timeout <
      (timeout / DEFAULT_WAIT_INTERVAL + 1) * DEFAULT_WAIT_INTERVAL := by
    simp only [DEFAULT_WAIT_INTERVAL]
    norm_num
    omega
  omega

theorem classifyStake_pending_iff (s : String) :
    classifyStake s = .pending ↔ s = "DepositProcessing" := by
  by_cases hs : s = "DepositProcessing"
  · subst hs; simp [classifyStake]
  · simp only [hs, iff_false]
    unfold classifyStake
    split_ifs with h1 h2 h3 <;> simp_all

theorem classifyUnstake_pending_iff (s : String) :
    classifyUnstake s = .pending ↔ s = "UnstakeProcessing" := by
  by_cases hs : s = "UnstakeProcessing"
  · subst hs; simp [classifyUnstake]
  · simp only [hs, iff_false]
    unfold classifyUnstake
    split_ifs with h1 h2 <;> simp_all

theorem classifyWithdraw_pending_iff (s : String) :
    classifyWithdraw s = .pending ↔ s = "WithdrawProcessing" := by
  by_cases hs : s = "WithdrawProcessing"
  · subst hs; simp [classifyWithdraw]
  · simp only [hs, iff_false]
    unfold classifyWithdraw
    split_ifs with h1 h2 h3 <;> simp_all

theorem classifyUnstake_no_failure (s : String) :
    classifyUnstake s ≠ .failure := by
  unfold classifyUnstake
  split_ifs <;> simp


theorem waitLoop_all_pending_timeout (classify : String → Bucket)
    (σ : Nat → Deposit → String) (elapsed : Nat → Nat) (timeout : Nat)
    (pending : List Deposit) (c : Counts)
    (hpend : ∀ k d, d ∈ pending → classify (σ k d) = .pending)
    (hne : pending ≠ []) :
    ∀ fuel r, (∃ j, j < fuel ∧ timeout < elapsed (r + j)) →
      ∃ j, timeout < elapsed (r + j) ∧
        waitLoop classify σ elapsed timeout fuel r pending c =
          .timeoutReached timeout pending (r + j) := by
  intro fuel
  induction fuel with
  | zero =>
    rintro r ⟨j, hj, _⟩
    omega
  | succ n ih =>
    rintro r ⟨j, hj, hgt⟩
    by_cases h : timeout < elapsed r
    · refine ⟨0, by simpa using h, ?_⟩
      rw [waitLoop_succ, if_pos h]
      rfl
    · have hround : processRound classify (σ r) pending c = (pending, c) :=
        processRound_all_pending classify (σ r) pending c
          (fun d hd => hpend r d hd)
      have hp1 : (processRound classify (σ r) pending c).1 = pending := by
        rw [hround]
      have hp2 : (processRound classify (σ r) pending c).2 = c := by
        rw [hround]
      have hj0 : j ≠ 0 := by
        rintro rfl
        exact h (by simpa using hgt)
      have hgt' : timeout < elapsed (r + 1 + (j - 1)) := by
        rw [show r + 1 + (j - 1) = r + j from by omega]
        exact hgt
      obtain ⟨j'', hgt'', heq⟩ := ih (r + 1) ⟨j - 1, by omega, hgt'⟩
      refine ⟨j'' + 1, ?_, ?_⟩
      · rw [show r + (j'' + 1) = r + 1 + j'' from by omega]
        exact hgt''
      · have hemp : pending.isEmpty = false := by
          cases pending with
          | nil => exact absurd rfl hne
          | cons a t => rfl
        rw [waitLoop_succ, if_neg h, hp1, hp2, hemp]
        simp only [Bool.false_eq_true, if_false]
        rw [heq, show r + 1 + j'' = r + (j'' + 1) from by omega]

theorem waitLoop_eventually_completed (classify : String → Bucket)
    (σ : Nat → Deposit → String) (elapsed : Nat → Nat) (timeout : Nat)
    (hmono : ∀ i j, i ≤ j → elapsed i ≤ elapsed j) :
    ∀ n fuel r (pending : List Deposit) (c : Counts), n < fuel →
      elapsed (r + n) ≤ timeout →
      (∀ d ∈ pending, ∃ k, r ≤ k ∧ k ≤ r + n ∧ classify (σ k d) ≠ .pending) →
      ∃ c' r', waitLoop classify σ elapsed timeout fuel r pending c =
        .completed c' r' := by
  intro n
  induction n with
  | zero =>
    intro fuel r pending c hfuel hK hterm
    obtain ⟨f, rfl⟩ : ∃ f, fuel = f + 1 := ⟨fuel - 1, by omega⟩
    have hnotto : ¬ timeout < elapsed r := by
      simp only [Nat.add_zero] at hK
      omega
    have hempty : (processRound classify (σ r) pending c).1 = [] := by
      by_contra hcon
      obtain ⟨d, hd⟩ := List.exists_mem_of_ne_nil _ hcon
      have hmem := (mem_processRound classify (σ r) pending c d).mp hd
      obtain ⟨k, hk1, hk2, hk3⟩ := hterm d hmem.1
      have hkr : k = r := by omega
      subst hkr
      exact hk3 hmem.2
    refine ⟨(processRound classify (σ r) pending c).2, r + 1, ?_⟩
    rw [waitLoop_succ, if_neg hnotto, hempty]
    simp
  | succ m ih =>
    intro fuel r pending c hfuel hK hterm
    obtain ⟨f, rfl⟩ : ∃ f, fuel = f + 1 := ⟨fuel - 1, by omega⟩
    have hnotto : ¬ timeout < elapsed r := by
      have := hmono r (r + (m + 1)) (by omega)
      omega
    by_cases hp : (processRound classify (σ r) pending c).1 = []
    · refine ⟨(processRound classify (σ r) pending c).2, r + 1, ?_⟩
      rw [waitLoop_succ, if_neg hnotto, hp]
      simp
    · have hterm' : ∀ d ∈ (processRound classify (σ r) pending c).1,
          ∃ k, r + 1 ≤ k ∧ k ≤ r + 1 + m ∧ classify (σ k d) ≠ .pending := by
        intro d hd
        have hmem := (mem_processRound classify (σ r) pending c d).mp hd
        obtain ⟨k, hk1, hk2, hk3⟩ := hterm d hmem.1
        have hkr : k ≠ r := by
          rintro rfl
          exact hk3 hmem.2
        exact ⟨k, by omega, by omega, hk3⟩
      have hK' : elapsed (r + 1 + m) ≤ timeout := by
        rw [show r + 1 + m = r + (m + 1) from by omega]
        exact hK
      obtain ⟨c', r', heq⟩ := ih f (r + 1)
        (processRound classify (σ r) pending c).1
        (processRound classify (σ r) pending c).2
        (by omega) hK' hterm'
      refine ⟨c', r', ?_⟩
      have hemp : (processRound classify (σ r) pending c).1.isEmpty = false := by
        cases hl : (processRound classify (σ r) pending c).1 with
        | nil => exact absurd hl hp
        | cons a t => rfl
      rw [waitLoop_succ, if_neg hnotto, hemp]
      simp only [Bool.false_eq_true, if_false]
      exact heq

theorem waitLoop_completed_counts (classify : String → Bucket)
    (σ : Nat → Deposit → String) (elapsed : Nat → Nat) (timeout : Nat) :
    ∀ fuel r (pending : List Deposit) (c₀ c : Counts) (r' : Nat),
      waitLoop classify σ elapsed timeout fuel r pending c₀ =
        .completed c r' →
      c.failure + c.success + c.invalid =
        pending.length + (c₀.failure + c₀.success + c₀.invalid) := by
  intro fuel
  induction fuel with
  | zero =>
    intro r pending c₀ c r' h
    rw [waitLoop_zero] at h
    cases h
  | succ n ih =>
    intro r pending c₀ c r' h
    rw [waitLoop_succ] at h
    by_cases h1 : timeout < elapsed r
    · rw [if_pos h1] at h
      cases h
    · rw [if_neg h1] at h
      by_cases h2 : (processRound classify (σ r) pending c₀).1.isEmpty = true
      · rw [if_pos h2] at h
        have hcnt := processRound_counts classify (σ r) pending c₀
        have hlen : (processRound classify (σ r) pending c₀).1.length = 0 := by
          rw [List.isEmpty_iff] at h2
          simp [h2]
        cases h
        omega
      · rw [if_neg h2] at h
        have hcnt := processRound_counts classify (σ r) pending c₀
        have hrec := ih (r + 1) (processRound classify (σ r) pending c₀).1
          (processRound classify (σ r) pending c₀).2 c r' h
        omega

theorem waitLoop_completed_no_failure (classify : String → Bucket)
    (σ : Nat → Deposit → String) (elapsed : Nat → Nat) (timeout : Nat)
    (hcl : ∀ s, classify s ≠ .failure) :
    ∀ fuel r (pending : List Deposit) (c₀ c : Counts) (r' : Nat),
      waitLoop classify σ elapsed timeout fuel r pending c₀ =
        .completed c r' →
      c.failure = c₀.failure := by
  intro fuel
  induction fuel with
  | zero =>
    intro r pending c₀ c r' h
    rw [waitLoop_zero] at h
    cases h
  | succ n ih =>
    intro r pending c₀ c r' h
    rw [waitLoop_succ] at h
    by_cases h1 : timeout < elapsed r
    · rw [if_pos h1] at h
      cases h
    · rw [if_neg h1] at h
      by_cases h2 : (processRound classify (σ r) pending c₀).1.isEmpty = true
      · rw [if_pos h2] at h
        cases h
        exact processRound_no_failure classify (σ r) hcl pending c₀
      · rw [if_neg h2] at h
        have hrec := ih (r + 1) (processRound classify (σ r) pending c₀).1
          (processRound classify (σ r) pending c₀).2 c r' h
        rw [hrec]
        exact processRound_no_failure classify (σ r) hcl pending c₀

/-- CLAIM C1: for each wait call (`waitUntilStaked`, `waitUntilUnstaked`,
`waitUntilWithdrawn`), an empty initial query result raises the not-found
error, and an initial query in which some deposit's status is not the
operation's pending status raises the precondition error naming the first
such deposit and its status.  Both outcomes are equal to a value mentioning
neither `σ` nor `elapsed` while holding for all of them, so the polling loop
is never entered and no sleep occurs. -/
theorem wait_precondition_spec (pre : Deposit → String)
    (σ : Nat → Deposit → String) (elapsed : Nat → Nat) (timeout : Nat)
    (input : DepositsInput) (d : Deposit) :
    (parseDepositsInput input = [] →
      waitUntilStaked pre σ elapsed timeout input = .notFound ∧
      waitUntilUnstaked pre σ elapsed timeout input = .notFound ∧
      waitUntilWithdrawn pre σ elapsed timeout input = .notFound) ∧
    ((parseDepositsInput input).find?
        (fun d => pre d != "DepositProcessing") = some d →
      waitUntilStaked pre σ elapsed timeout input =
        .notStarted d.txHash (pre d)) ∧
    ((parseDepositsInput input).find?
        (fun d => pre d != "UnstakeProcessing") = some d →
      waitUntilUnstaked pre σ elapsed timeout input =
        .notStarted d.txHash (pre d)) ∧
    ((parseDepositsInput input).find?
        (fun d => pre d != "WithdrawProcessing") = some d →
      waitUntilWithdrawn pre σ elapsed timeout input =
        .notStarted d.txHash (pre d)) := by
  refine ⟨fun h => ⟨?_, ?_, ?_⟩, fun hf => ?_, fun hf => ?_, fun hf => ?_⟩
  · simp [waitUntilStaked, h, queryDeposits]
  · simp [waitUntilUnstaked, h, queryDeposits]
  · simp [waitUntilWithdrawn, h, queryDeposits]
  · have hne : parseDepositsInput input ≠ [] := by
      intro h0
      rw [h0] at hf
      simp at hf
    have hlen := queryDeposits_length_bne pre (parseDepositsInput input) hne
    have hfind := queryDeposits_find?_eq_some pre
      (fun r => r.status != "DepositProcessing") (parseDepositsInput input) d hf
    simp only [waitUntilStaked, hlen, Bool.false_eq_true, if_false, hfind]
  · have hne : parseDepositsInput input ≠ [] := by
      intro h0
      rw [h0] at hf
      simp at hf
    have hlen := queryDeposits_length_bne pre (parseDepositsInput input) hne
    have hfind := queryDeposits_find?_eq_some pre
      (fun r => r.status != "UnstakeProcessing") (parseDepositsInput input) d hf
    simp only [waitUntilUnstaked, hlen, Bool.false_eq_true, if_false, hfind]
  · have hne : parseDepositsInput input ≠ [] := by
      intro h0
      rw [h0] at hf
      simp at hf
    have hlen := queryDeposits_length_bne pre (parseDepositsInput input) hne
    have hfind := queryDeposits_find?_eq_some pre
      (fun r => r.status != "WithdrawProcessing") (parseDepositsInput input) d hf
    simp only [waitUntilWithdrawn, hlen, Bool.false_eq_true, if_false, hfind]

theorem wait_precondition_spec_witness :
    ((parseDepositsInput (.single "tx")).find?
        (fun d => (fun _ : Deposit => "WithdrawConfirmed") d !=
          "DepositProcessing") = some ⟨"tx", 0⟩) ∧
    waitUntilStaked (fun _ => "WithdrawConfirmed") (fun _ _ => "w")
      (fun _ => 0) 0 (.single "tx") =
      .notStarted "tx" "WithdrawConfirmed" ∧
    waitUntilUnstaked (fun _ => "WithdrawConfirmed") (fun _ _ => "w")
      (fun _ => 0) 0 (.single "tx") =
      .notStarted "tx" "WithdrawConfirmed" ∧
    parseDepositsInput (.hashes []) = [] ∧
    waitUntilWithdrawn (fun _ => "WithdrawConfirmed") (fun _ _ => "w")
      (fun _ => 0) 0 (.hashes []) = .notFound :=
  ⟨by decide,
    (wait_precondition_spec (fun _ => "WithdrawConfirmed") (fun _ _ => "w")
      (fun _ => 0) 0 (.single "tx") ⟨"tx", 0⟩).2.1 (by decide),
    (wait_precondition_spec (fun _ => "WithdrawConfirmed") (fun _ _ => "w")
      (fun _ => 0) 0 (.single "tx") ⟨"tx", 0⟩).2.2.1 (by decide),
    rfl,
    ((wait_precondition_spec (fun _ => "WithdrawConfirmed") (fun _ _ => "w")
      (fun _ => 0) 0 (.hashes []) ⟨"tx", 0⟩).1 rfl).2.2⟩

/-- CLAIM C2: with the default timeout equal to one hour, a wait call whose
deposits pass the precondition and stay in the operation's pending status on
every poll does not loop forever: on any trace whose elapsed clock grows by
at least the sleep interval per round, the call returns the timeout error at
some round whose elapsed time exceeds `timeout`, carrying the still-pending
deposits (here the full normalized input, since none ever left pending). -/
theorem wait_timeout_spec :
    DEFAULT_WAIT_TIMEOUT = 60 * 60 * 1000 ∧
    (∀ (pre : Deposit → String) (σ : Nat → Deposit → String)
        (elapsed : Nat → Nat) (timeout : Nat) (input : DepositsInput),
      (∀ k, elapsed k + DEFAULT_WAIT_INTERVAL ≤ elapsed (k + 1)) →
      parseDepositsInput input ≠ [] →
      (∀ d ∈ parseDepositsInput input, pre d = "DepositProcessing") →
      (∀ k d, d ∈ parseDepositsInput input → σ k d = "DepositProcessing") →
      ∃ r, timeout < elapsed r ∧
        waitUntilStaked pre σ elapsed timeout input =
          .timeoutReached timeout (parseDepositsInput input) r) ∧
    (∀ (pre : Deposit → String) (σ : Nat → Deposit → String)
        (elapsed : Nat → Nat) (timeout : Nat) (input : DepositsInput),
      (∀ k, elapsed k + DEFAULT_WAIT_INTERVAL ≤ elapsed (k + 1)) →
      parseDepositsInput input ≠ [] →
      (∀ d ∈ parseDepositsInput input, pre d = "UnstakeProcessing") →
      (∀ k d, d ∈ parseDepositsInput input → σ k d = "UnstakeProcessing") →
      ∃ r, timeout < elapsed r ∧
        waitUntilUnstaked pre σ elapsed timeout input =
          .timeoutReached timeout (parseDepositsInput input) r) ∧
    (∀ (pre : Deposit → String) (σ : Nat → Deposit → String)
        (elapsed : Nat → Nat) (timeout : Nat) (input : DepositsInput),
      (∀ k, elapsed k + DEFAULT_WAIT_INTERVAL ≤ elapsed (k + 1)) →
      parseDepositsInput input ≠ [] →
      (∀ d ∈ parseDepositsInput input, pre d = "WithdrawProcessing") →
      (∀ k d, d ∈ parseDepositsInput input → σ k d = "WithdrawProcessing") →
      ∃ r, timeout < elapsed r ∧
        waitUntilWithdrawn pre σ elapsed timeout input =
          .timeoutReached timeout (parseDepositsInput input) r) := by
  refine ⟨rfl, ?_, ?_, ?_⟩
  · intro pre σ elapsed timeout input hstep hne hpre hσ
    have hlen := queryDeposits_length_bne pre (parseDepositsInput input) hne
    have hfind : (queryDeposits pre (parseDepositsInput input)).find?
        (fun r => r.status != "DepositProcessing") = none :=
      queryDeposits_find?_eq_none pre _ _ (fun d hd => by simp [hpre d hd])
    have hpend : ∀ k d, d ∈ parseDepositsInput input →
        classifyStake (σ k d) = .pending :=
      fun k d hd => (classifyStake_pending_iff _).mpr (hσ k d hd)
    obtain ⟨j0, hj0f, hj0t⟩ := exists_timeout_round elapsed timeout hstep
    obtain ⟨j, hjt, hw⟩ := waitLoop_all_pending_timeout classifyStake σ elapsed
      timeout (parseDepositsInput input) ⟨0, 0, 0⟩ hpend hne (waitFuel timeout)
      0 ⟨j0, hj0f, by simpa using hj0t⟩
    rw [Nat.zero_add] at hjt hw
    refine ⟨j, hjt, ?_⟩
    simp only [waitUntilStaked, hlen, Bool.false_eq_true, if_false, hfind]
    exact hw
  · intro pre σ elapsed timeout input hstep hne hpre hσ
    have hlen := queryDeposits_length_bne pre (parseDepositsInput input) hne
    have hfind : (queryDeposits pre (parseDepositsInput input)).find?
        (fun r => r.status != "UnstakeProcessing") = none :=
      queryDeposits_find?_eq_none pre _ _ (fun d hd => by simp [hpre d hd])
    have hpend : ∀ k d, d ∈ parseDepositsInput input →
        classifyUnstake (σ k d) = .pending :=
      fun k d hd => (classifyUnstake_pending_iff _).mpr (hσ k d hd)
    obtain ⟨j0, hj0f, hj0t⟩ := exists_timeout_round elapsed timeout hstep
    obtain ⟨j, hjt, hw⟩ := waitLoop_all_pending_timeout classifyUnstake σ
      elapsed timeout (parseDepositsInput input) ⟨0, 0, 0⟩ hpend hne
      (waitFuel timeout) 0 ⟨j0, hj0f, by simpa using hj0t⟩
    rw [Nat.zero_add] at hjt hw
    refine ⟨j, hjt, ?_⟩
    simp only [waitUntilUnstaked, hlen, Bool.false_eq_true, if_false, hfind]
    exact hw
  · intro pre σ elapsed timeout input hstep hne hpre hσ
    have hlen := queryDeposits_length_bne pre (parseDepositsInput input) hne
    have hfind : (queryDeposits pre (parseDepositsInput input)).find?
        (fun r => r.status != "WithdrawProcessing") = none :=
      queryDeposits_find?_eq_none pre _ _ (fun d hd => by simp [hpre d hd])
    have hpend : ∀ k d, d ∈ parseDepositsInput input →
        classifyWithdraw (σ k d) = .pending :=
      fun k d hd => (classifyWithdraw_pending_iff _).mpr (hσ k d hd)
    obtain ⟨j0, hj0f, hj0t⟩ := exists_timeout_round elapsed timeout hstep
    obtain ⟨j, hjt, hw⟩ := waitLoop_all_pending_timeout classifyWithdraw σ
      elapsed timeout (parseDepositsInput input) ⟨0, 0, 0⟩ hpend hne
      (waitFuel timeout) 0 ⟨j0, hj0f, by simpa using hj0t⟩
    rw [Nat.zero_add] at hjt hw
    refine ⟨j, hjt, ?_⟩
    simp only [waitUntilWithdrawn, hlen, Bool.false_eq_true, if_false, hfind]
    exact hw

theorem wait_timeout_spec_witness :
    (∃ r, 0 < r * DEFAULT_WAIT_INTERVAL ∧
      waitUntilStaked (fun _ => "DepositProcessing")
        (fun _ _ => "DepositProcessing") (fun k => k * DEFAULT_WAIT_INTERVAL)
        0 (.single "tx") = .timeoutReached 0 [⟨"tx", 0⟩] r) ∧
    (∃ r, 0 < r * DEFAULT_WAIT_INTERVAL ∧
      waitUntilUnstaked (fun _ => "UnstakeProcessing")
        (fun _ _ => "UnstakeProcessing") (fun k => k * DEFAULT_WAIT_INTERVAL)
        0 (.single "tx") = .timeoutReached 0 [⟨"tx", 0⟩] r) ∧
    (∃ r, 0 < r * DEFAULT_WAIT_INTERVAL ∧
      waitUntilWithdrawn (fun _ => "WithdrawProcessing")
        (fun _ _ => "WithdrawProcessing") (fun k => k * DEFAULT_WAIT_INTERVAL)
        0 (.single "tx") = .timeoutReached 0 [⟨"tx", 0⟩] r) :=
  ⟨wait_timeout_spec.2.1 (fun _ => "DepositProcessing")
      (fun _ _ => "DepositProcessing") (fun k => k * DEFAULT_WAIT_INTERVAL) 0
      (.single "tx")
      (fun k => le_of_eq (Nat.succ_mul k DEFAULT_WAIT_INTERVAL).symm)
      (by decide) (fun d _ => rfl) (fun k d _ => rfl),
    wait_timeout_spec.2.2.1 (fun _ => "UnstakeProcessing")
      (fun _ _ => "UnstakeProcessing") (fun k => k * DEFAULT_WAIT_INTERVAL) 0
      (.single "tx")
      (fun k => le_of_eq (Nat.succ_mul k DEFAULT_WAIT_INTERVAL).symm)
      (by decide) (fun d _ => rfl) (fun k d _ => rfl),
    wait_timeout_spec.2.2.2 (fun _ => "WithdrawProcessing")
      (fun _ _ => "WithdrawProcessing") (fun k => k * DEFAULT_WAIT_INTERVAL) 0
      (.single "tx")
      (fun k => le_of_eq (Nat.succ_mul k DEFAULT_WAIT_INTERVAL).symm)
      (by decide) (fun d _ => rfl) (fun k d _ => rfl)⟩

/-- CLAIM C3: a multi-deposit wait call whose deposits all pass the
precondition and each leave the pending status by some poll round `k ≤ K`
with `elapsed K` still within the timeout returns normally (`completed`),
however its deposits split among the success, failure and invalid buckets:
a failed or invalid deposit is merely counted, never raising an error nor
stopping the polling of its still-pending siblings. -/
theorem wait_convergence_spec :
    (∀ (pre : Deposit → String) (σ : Nat → Deposit → String)
        (elapsed : Nat → Nat) (timeout K : Nat) (input : DepositsInput),
      (∀ k, elapsed k + DEFAULT_WAIT_INTERVAL ≤ elapsed (k + 1)) →
      parseDepositsInput input ≠ [] →
      (∀ d ∈ parseDepositsInput input, pre d = "DepositProcessing") →
      elapsed K ≤ timeout →
      (∀ d ∈ parseDepositsInput input,
        ∃ k, k ≤ K ∧ σ k d ≠ "DepositProcessing") →
      ∃ c r, waitUntilStaked pre σ elapsed timeout input = .completed c r) ∧
    (∀ (pre : Deposit → String) (σ : Nat → Deposit → String)
        (elapsed : Nat → Nat) (timeout K : Nat) (input : DepositsInput),
      (∀ k, elapsed k + DEFAULT_WAIT_INTERVAL ≤ elapsed (k + 1)) →
      parseDepositsInput input ≠ [] →
      (∀ d ∈ parseDepositsInput input, pre d = "UnstakeProcessing") →
      elapsed K ≤ timeout →
      (∀ d ∈ parseDepositsInput input,
        ∃ k, k ≤ K ∧ σ k d ≠ "UnstakeProcessing") →
      ∃ c r, waitUntilUnstaked pre σ elapsed timeout input = .completed c r) ∧
    (∀ (pre : Deposit → String) (σ : Nat → Deposit → String)
        (elapsed : Nat → Nat) (timeout K : Nat) (input : DepositsInput),
      (∀ k, elapsed k + DEFAULT_WAIT_INTERVAL ≤ elapsed (k + 1)) →
      parseDepositsInput input ≠ [] →
      (∀ d ∈ parseDepositsInput input, pre d = "WithdrawProcessing") →
      elapsed K ≤ timeout →
      (∀ d ∈ parseDepositsInput input,
        ∃ k, k ≤ K ∧ σ k d ≠ "WithdrawProcessing") →
      ∃ c r, waitUntilWithdrawn pre σ elapsed timeout input =
        .completed c r) := by
  refine ⟨?_, ?_, ?_⟩
  · intro pre σ elapsed timeout K input hstep hne hpre hK hterm
    have hmono := elapsed_mono elapsed hstep
    have hlen := queryDeposits_length_bne pre (parseDepositsInput input) hne
    have hfind : (queryDeposits pre (parseDepositsInput input)).find?
        (fun r => r.status != "DepositProcessing") = none :=
      queryDeposits_find?_eq_none pre _ _ (fun d hd => by simp [hpre d hd])
    have hKfuel : K < waitFuel timeout := by
      have hKle : K * DEFAULT_WAIT_INTERVAL ≤ timeout :=
        le_trans (elapsed_lower elapsed hstep K) hK
      have hKdiv : K ≤ timeout / DEFAULT_WAIT_INTERVAL :=
        (Nat.le_div_iff_mul_le (by norm_num [DEFAULT_WAIT_INTERVAL])).mpr hKle
      simp only [waitFuel]
      omega
    have hterm' : ∀ d ∈ parseDepositsInput input,
        ∃ k, 0 ≤ k ∧ k ≤ 0 + K ∧ classifyStake (σ k d) ≠ .pending := by
      intro d hd
      obtain ⟨k, hk, hkp⟩ := hterm d hd
      exact ⟨k, Nat.zero_le k, by omega,
        fun hc => hkp ((classifyStake_pending_iff _).mp hc)⟩
    obtain ⟨c, r, hw⟩ := waitLoop_eventually_completed classifyStake σ elapsed
      timeout hmono K (waitFuel timeout) 0 (parseDepositsInput input)
      ⟨0, 0, 0⟩ hKfuel (by rw [Nat.zero_add]; exact hK) hterm'
    refine ⟨c, r, ?_⟩
    simp only [waitUntilStaked, hlen, Bool.false_eq_true, if_false, hfind]
    exact hw
  · intro pre σ elapsed timeout K input hstep hne hpre hK hterm
    have hmono := elapsed_mono elapsed hstep
    have hlen := queryDeposits_length_bne pre (parseDepositsInput input) hne
    have hfind : (queryDeposits pre (parseDepositsInput input)).find?
        (fun r => r.status != "UnstakeProcessing") = none :=
      queryDeposits_find?_eq_none pre _ _ (fun d hd => by simp [hpre d hd])
    have hKfuel : K < waitFuel timeout := by
      have hKle : K * DEFAULT_WAIT_INTERVAL ≤ timeout :=
        le_trans (elapsed_lower elapsed hstep K) hK
      have hKdiv : K ≤ timeout / DEFAULT_WAIT_INTERVAL :=
        (Nat.le_div_iff_mul_le (by norm_num [DEFAULT_WAIT_INTERVAL])).mpr hKle
      simp only [waitFuel]
      omega
    have hterm' : ∀ d ∈ parseDepositsInput input,
        ∃ k, 0 ≤ k ∧ k ≤ 0 + K ∧ classifyUnstake (σ k d) ≠ .pending := by
      intro d hd
      obtain ⟨k, hk, hkp⟩ := hterm d hd
      exact ⟨k, Nat.zero_le k, by omega,
        fun hc => hkp ((classifyUnstake_pending_iff _).mp hc)⟩
    obtain ⟨c, r, hw⟩ := waitLoop_eventually_completed classifyUnstake σ
      elapsed timeout hmono K (waitFuel timeout) 0 (parseDepositsInput input)
      ⟨0, 0, 0⟩ hKfuel (by rw [Nat.zero_add]; exact hK) hterm'
    refine ⟨c, r, ?_⟩
    simp only [waitUntilUnstaked, hlen, Bool.false_eq_true, if_false, hfind]
    exact hw
  · intro pre σ elapsed timeout K input hstep hne hpre hK hterm
    have hmono := elapsed_mono elapsed hstep
    have hlen := queryDeposits_length_bne pre (parseDepositsInput input) hne
    have hfind : (queryDeposits pre (parseDepositsInput input)).find?
        (fun r => r.status != "WithdrawProcessing") = none :=
      queryDeposits_find?_eq_none pre _ _ (fun d hd => by simp [hpre d hd])
    have hKfuel : K < waitFuel timeout := by
      have hKle : K * DEFAULT_WAIT_INTERVAL ≤ timeout :=
        le_trans (elapsed_lower elapsed hstep K) hK
      have hKdiv : K ≤ timeout / DEFAULT_WAIT_INTERVAL :=
        (Nat.le_div_iff_mul_le (by norm_num [DEFAULT_WAIT_INTERVAL])).mpr hKle
      simp only [waitFuel]
      omega
    have hterm' : ∀ d ∈ parseDepositsInput input,
        ∃ k, 0 ≤ k ∧ k ≤ 0 + K ∧ classifyWithdraw (σ k d) ≠ .pending := by
      intro d hd
      obtain ⟨k, hk, hkp⟩ := hterm d hd
      exact ⟨k, Nat.zero_le k, by omega,
        fun hc => hkp ((classifyWithdraw_pending_iff _).mp hc)⟩
    obtain ⟨c, r, hw⟩ := waitLoop_eventually_completed classifyWithdraw σ
      elapsed timeout hmono K (waitFuel timeout) 0 (parseDepositsInput input)
      ⟨0, 0, 0⟩ hKfuel (by rw [Nat.zero_add]; exact hK) hterm'
    refine ⟨c, r, ?_⟩
    simp only [waitUntilWithdrawn, hlen, Bool.false_eq_true, if_false, hfind]
    exact hw

theorem wait_convergence_spec_witness :
    ∃ c r,
      waitUntilStaked (fun _ => "DepositProcessing")
        (fun k d =>
          if k = 0 then
            if d.txHash = "a" then "DepositConfirmed" else "DepositProcessing"
          else if d.txHash = "b" then "DepositFailed" else "Whatever")
        (fun k => k * DEFAULT_WAIT_INTERVAL) DEFAULT_WAIT_TIMEOUT
        (.items [⟨"a", 0⟩, ⟨"b", 0⟩, ⟨"c", 0⟩]) = .completed c r :=
  wait_convergence_spec.1 (fun _ => "DepositProcessing")
    (fun k d =>
      if k = 0 then
        if d.txHash = "a" then "DepositConfirmed" else "DepositProcessing"
      else if d.txHash = "b" then "DepositFailed" else "Whatever")
    (fun k => k * DEFAULT_WAIT_INTERVAL) DEFAULT_WAIT_TIMEOUT 1
    (.items [⟨"a", 0⟩, ⟨"b", 0⟩, ⟨"c", 0⟩])
    (fun k => le_of_eq (Nat.succ_mul k DEFAULT_WAIT_INTERVAL).symm)
    (by decide) (fun d _ => rfl) (by decide)
    (by
      intro d hd
      simp only [parseDepositsInput, List.mem_cons, List.not_mem_nil,
        or_false] at hd
      rcases hd with rfl | rfl | rfl
      · exact ⟨0, by decide, by decide⟩
      · exact ⟨1, by decide, by decide⟩
      · exact ⟨1, by decide, by decide⟩)

/-- CLAIM C8: whenever a wait call returns normally, its final counters sum
to the number of deposit references in the normalized input —
success + failure + invalid for `waitUntilStaked` and `waitUntilWithdrawn`,
success + invalid for `waitUntilUnstaked`, whose classifier has no failure
branch so its failure counter stays 0.  Each deposit is counted exactly once
(when it first leaves the pending set, after which it is dropped from the
re-queried list), which is what the preserved sum expresses. -/
theorem wait_counts_spec (pre : Deposit → String)
    (σ : Nat → Deposit → String) (elapsed : Nat → Nat) (timeout : Nat)
    (input : DepositsInput) (c : Counts) (r : Nat) :
    (waitUntilStaked pre σ elapsed timeout input = .completed c r →
      c.success + c.failure + c.invalid =
        (parseDepositsInput input).length) ∧
    (waitUntilWithdrawn pre σ elapsed timeout input = .completed c r →
      c.success + c.failure + c.invalid =
        (parseDepositsInput input).length) ∧
    (waitUntilUnstaked pre σ elapsed timeout input = .completed c r →
      c.success + c.invalid = (parseDepositsInput input).length ∧
      c.failure = 0) := by
  refine ⟨?_, ?_, ?_⟩
  · simp only [waitUntilStaked]
    split
    · intro h
      cases h
    · split
      · intro h
        cases h
      · intro h
        have := waitLoop_completed_counts classifyStake σ elapsed timeout
          (waitFuel timeout) 0 (parseDepositsInput input) ⟨0, 0, 0⟩ c r h
        simp only at this
        omega
  · simp only [waitUntilWithdrawn]
    split
    · intro h
      cases h
    · split
      · intro h
        cases h
      · intro h
        have := waitLoop_completed_counts classifyWithdraw σ elapsed timeout
          (waitFuel timeout) 0 (parseDepositsInput input) ⟨0, 0, 0⟩ c r h
        simp only at this
        omega
  · simp only [waitUntilUnstaked]
    split
    · intro h
      cases h
    · split
      · intro h
        cases h
      · intro h
        have hsum := waitLoop_completed_counts classifyUnstake σ elapsed
          timeout (waitFuel timeout) 0 (parseDepositsInput input) ⟨0, 0, 0⟩
          c r h
        have hfail := waitLoop_completed_no_failure classifyUnstake σ elapsed
          timeout classifyUnstake_no_failure (waitFuel timeout) 0
          (parseDepositsInput input) ⟨0, 0, 0⟩ c r h
        simp only at hsum hfail
        omega

theorem wait_counts_spec_witness :
    ((Counts.mk 0 1 0).success + (Counts.mk 0 1 0).failure +
        (Counts.mk 0 1 0).invalid =
      (parseDepositsInput (.single "tx")).length) ∧
    ((Counts.mk 0 1 0).success + (Counts.mk 0 1 0).invalid =
        (parseDepositsInput (.single "tx2")).length ∧
      (Counts.mk 0 1 0).failure = 0) :=
  ⟨(wait_counts_spec (fun _ => "DepositProcessing")
      (fun _ _ => "DepositConfirmed") (fun _ => 0) DEFAULT_WAIT_TIMEOUT
      (.single "tx") ⟨0, 1, 0⟩ 1).1 (by decide),
    (wait_counts_spec (fun _ => "UnstakeProcessing")
      (fun _ _ => "UnstakeConfirmed") (fun _ => 0) DEFAULT_WAIT_TIMEOUT
      (.single "tx2") ⟨0, 1, 0⟩ 1).2.2 (by decide)⟩

/-- CLAIM C9: an empty deposits array normalizes to the empty reference
list, the batch status query over it is empty, and every operation taking a
deposits input — `unstake`, `withdraw` and the three wait functions —
returns the deposits-not-found error on it.  The error is the value of the
branch taken before the polling loop and before any signing step, for every
polling oracle and clock, so no polling round runs and no sleep occurs. -/
theorem empty_deposits_spec :
    parseDepositsInput (.hashes []) = [] ∧
    parseDepositsInput (.items []) = [] ∧
    (∀ pre : Deposit → String, queryDeposits pre [] = []) ∧
    (∀ (pre : Deposit → String) (σ : Nat → Deposit → String)
        (elapsed : Nat → Nat) (timeout : Nat) (input : DepositsInput)
        (signMessage : Option (String → String))
        (buildMsg : List Deposit → String) (account : Account)
        (signPsbt : Option (String → String))
        (buildPsbt : List Deposit → String)
        (chainSign submitF : String → String),
      parseDepositsInput input = [] →
      unstake pre signMessage buildMsg input = .notFound ∧
      withdraw pre account signPsbt buildPsbt chainSign submitF input =
        .notFound ∧
      waitUntilStaked pre σ elapsed timeout input = .notFound ∧
      waitUntilUnstaked pre σ elapsed timeout input = .notFound ∧
      waitUntilWithdrawn pre σ elapsed timeout input = .notFound) := by
  refine ⟨rfl, rfl, fun pre => rfl, ?_⟩
  intro pre σ elapsed timeout input signMessage buildMsg account signPsbt
    buildPsbt chainSign submitF h
  refine ⟨?_, ?_, ?_, ?_, ?_⟩
  · simp [unstake, h, queryDeposits]
  · simp [withdraw, h, queryDeposits]
  · simp [waitUntilStaked, h, queryDeposits]
  · simp [waitUntilUnstaked, h, queryDeposits]
  · simp [waitUntilWithdrawn, h, queryDeposits]

theorem empty_deposits_spec_witness :
    parseDepositsInput (.hashes []) = [] ∧
    unstake (fun _ => "DepositConfirmed") none (fun _ => "m") (.hashes []) =
      .notFound ∧
    withdraw (fun _ => "DepositConfirmed") ⟨none⟩ none (fun _ => "b")
      (fun s => s) (fun s => s) (.hashes []) = .notFound ∧
    waitUntilStaked (fun _ => "DepositConfirmed") (fun _ _ => "s")
      (fun _ => 0) 0 (.hashes []) = .notFound ∧
    waitUntilUnstaked (fun _ => "DepositConfirmed") (fun _ _ => "s")
      (fun _ => 0) 0 (.hashes []) = .notFound ∧
    waitUntilWithdrawn (fun _ => "DepositConfirmed") (fun _ _ => "s")
      (fun _ => 0) 0 (.hashes []) = .notFound := by
  have h := empty_deposits_spec.2.2.2 (fun _ => "DepositConfirmed")
    (fun _ _ => "s") (fun _ => 0) 0 (.hashes []) none (fun _ => "m") ⟨none⟩
    none (fun _ => "b") (fun s => s) (fun s => s) rfl
  exact ⟨rfl, h.1, h.2.1, h.2.2.1, h.2.2.2.1, h.2.2.2.2⟩

theorem waitLoop_two_rounds_timeout (classify : String → Bucket)
    (σ : Nat → Deposit → String) (elapsed : Nat → Nat)
    (pending : List Deposit) (c : Counts)
    (h0 : elapsed 0 = 0) (h1 : 0 < elapsed 1)
    (hpend : ∀ d ∈ pending, classify (σ 0 d) = .pending)
    (hne : pending ≠ []) (fuel : Nat) (hfuel : fuel = 2) :
    waitLoop classify σ elapsed 0 fuel 0 pending c =
      .timeoutReached 0 pending 1 := by
  subst hfuel
  have hround := processRound_all_pending classify (σ 0) pending c hpend
  have hp1 : (processRound classify (σ 0) pending c).1 = pending := by
    rw [hround]
  have hp2 : (processRound classify (σ 0) pending c).2 = c := by
    rw [hround]
  have hemp : pending.isEmpty = false := by
    cases pending with
    | nil => exact absurd rfl hne
    | cons a t => rfl
  show waitLoop classify σ elapsed 0 (1 + 1) 0 pending c = _
  rw [waitLoop_succ, if_neg (by omega : ¬ (0 : Nat) < elapsed 0), hp1, hp2,
    hemp]
  simp only [Bool.false_eq_true, if_false]
  show waitLoop classify σ elapsed 0 (0 + 1) (0 + 1) pending c = _
  rw [waitLoop_succ, if_pos (by simpa using h1 : (0 : Nat) < elapsed (0 + 1))]

/-- CLAIM C10: the timeout deadline is compared with the elapsed clock only
at the start of a polling round (never mid-round or during the sleep): with
timeout 0 and a clock starting at 0 that has slept a full interval between
rounds, a wait call over deposits that stay pending runs exactly one full
polling round (classifying every deposit), sleeps once, and only then
raises the timeout error at round 1 — by which point at least one full
sleep interval (2 minutes) beyond the timeout has already passed, plus the
duration of the round's queries on a real trace. -/
theorem timeout_granularity_spec :
    DEFAULT_WAIT_INTERVAL = 2 * 60 * 1000 ∧
    (∀ (pre : Deposit → String) (σ : Nat → Deposit → String)
        (elapsed : Nat → Nat) (input : DepositsInput),
      (∀ k, elapsed k + DEFAULT_WAIT_INTERVAL ≤ elapsed (k + 1)) →
      elapsed 0 = 0 →
      parseDepositsInput input ≠ [] →
      (∀ d ∈ parseDepositsInput input, pre d = "DepositProcessing") →
      (∀ k d, d ∈ parseDepositsInput input → σ k d = "DepositProcessing") →
      waitUntilStaked pre σ elapsed 0 input =
        .timeoutReached 0 (parseDepositsInput input) 1 ∧
      DEFAULT_WAIT_INTERVAL ≤ elapsed 1) ∧
    (∀ (pre : Deposit → String) (σ : Nat → Deposit → String)
        (elapsed : Nat → Nat) (input : DepositsInput),
      (∀ k, elapsed k + DEFAULT_WAIT_INTERVAL ≤ elapsed (k + 1)) →
      elapsed 0 = 0 →
      parseDepositsInput input ≠ [] →
      (∀ d ∈ parseDepositsInput input, pre d = "UnstakeProcessing") →
      (∀ k d, d ∈ parseDepositsInput input → σ k d = "UnstakeProcessing") →
      waitUntilUnstaked pre σ elapsed 0 input =
        .timeoutReached 0 (parseDepositsInput input) 1 ∧
      DEFAULT_WAIT_INTERVAL ≤ elapsed 1) ∧
    (∀ (pre : Deposit → String) (σ : Nat → Deposit → String)
        (elapsed : Nat → Nat) (input : DepositsInput),
      (∀ k, elapsed k + DEFAULT_WAIT_INTERVAL ≤ elapsed (k + 1)) →
      elapsed 0 = 0 →
      parseDepositsInput input ≠ [] →
      (∀ d ∈ parseDepositsInput input, pre d = "WithdrawProcessing") →
      (∀ k d, d ∈ parseDepositsInput input → σ k d = "WithdrawProcessing") →
      waitUntilWithdrawn pre σ elapsed 0 input =
        .timeoutReached 0 (parseDepositsInput input) 1 ∧
      DEFAULT_WAIT_INTERVAL ≤ elapsed 1) := by
  have hpos : 0 < DEFAULT_WAIT_INTERVAL := by norm_num [DEFAULT_WAIT_INTERVAL]
  refine ⟨rfl, ?_, ?_, ?_⟩
  · intro pre σ elapsed input hstep h0 hne hpre hσ
    have hIle : DEFAULT_WAIT_INTERVAL ≤ elapsed 1 := by
      have := hstep 0
      simp only [Nat.zero_add] at this
      omega
    refine ⟨?_, hIle⟩
    have hlen := queryDeposits_length_bne pre (parseDepositsInput input) hne
    have hfind : (queryDeposits pre (parseDepositsInput input)).find?
        (fun r => r.status != "DepositProcessing") = none :=
      queryDeposits_find?_eq_none pre _ _ (fun d hd => by simp [hpre d hd])
    simp only [waitUntilStaked, hlen, Bool.false_eq_true, if_false, hfind]
    exact waitLoop_two_rounds_timeout classifyStake σ elapsed
      (parseDepositsInput input) ⟨0, 0, 0⟩ h0 (by omega)
      (fun d hd => (classifyStake_pending_iff _).mpr (hσ 0 d hd)) hne
      (waitFuel 0) (by decide)
  · intro pre σ elapsed input hstep h0 hne hpre hσ
    have hIle : DEFAULT_WAIT_INTERVAL ≤ elapsed 1 := by
      have := hstep 0
      simp only [Nat.zero_add] at this
      omega
    refine ⟨?_, hIle⟩
    have hlen := queryDeposits_length_bne pre (parseDepositsInput input) hne
    have hfind : (queryDeposits pre (parseDepositsInput input)).find?
        (fun r => r.status != "UnstakeProcessing") = none :=
      queryDeposits_find?_eq_none pre _ _ (fun d hd => by simp [hpre d hd])
    simp only [waitUntilUnstaked, hlen, Bool.false_eq_true, if_false, hfind]
    exact waitLoop_two_rounds_timeout classifyUnstake σ elapsed
      (parseDepositsInput input) ⟨0, 0, 0⟩ h0 (by omega)
      (fun d hd => (classifyUnstake_pending_iff _).mpr (hσ 0 d hd)) hne
      (waitFuel 0) (by decide)
  · intro pre σ elapsed input hstep h0 hne hpre hσ
    have hIle : DEFAULT_WAIT_INTERVAL ≤ elapsed 1 := by
      have := hstep 0
      simp only [Nat.zero_add] at this
      omega
    refine ⟨?_, hIle⟩
    have hlen := queryDeposits_length_bne pre (parseDepositsInput input) hne
    have hfind : (queryDeposits pre (parseDepositsInput input)).find?
        (fun r => r.status != "WithdrawProcessing") = none :=
      queryDeposits_find?_eq_none pre _ _ (fun d hd => by simp [hpre d hd])
    simp only [waitUntilWithdrawn, hlen, Bool.false_eq_true, if_false, hfind]
    exact waitLoop_two_rounds_timeout classifyWithdraw σ elapsed
      (parseDepositsInput input) ⟨0, 0, 0⟩ h0 (by omega)
      (fun d hd => (classifyWithdraw_pending_iff _).mpr (hσ 0 d hd)) hne
      (waitFuel 0) (by decide)

theorem timeout_granularity_spec_witness :
    (waitUntilStaked (fun _ => "DepositProcessing")
        (fun _ _ => "DepositProcessing") (fun k => k * DEFAULT_WAIT_INTERVAL)
        0 (.single "tx") = .timeoutReached 0 [⟨"tx", 0⟩] 1 ∧
      DEFAULT_WAIT_INTERVAL ≤ 1 * DEFAULT_WAIT_INTERVAL) ∧
    (waitUntilUnstaked (fun _ => "UnstakeProcessing")
        (fun _ _ => "UnstakeProcessing") (fun k => k * DEFAULT_WAIT_INTERVAL)
        0 (.single "tx") = .timeoutReached 0 [⟨"tx", 0⟩] 1 ∧
      DEFAULT_WAIT_INTERVAL ≤ 1 * DEFAULT_WAIT_INTERVAL) ∧
    (waitUntilWithdrawn (fun _ => "WithdrawProcessing")
        (fun _ _ => "WithdrawProcessing") (fun k => k * DEFAULT_WAIT_INTERVAL)
        0 (.single "tx") = .timeoutReached 0 [⟨"tx", 0⟩] 1 ∧
      DEFAULT_WAIT_INTERVAL ≤ 1 * DEFAULT_WAIT_INTERVAL) :=
  ⟨timeout_granularity_spec.2.1 (fun _ => "DepositProcessing")
      (fun _ _ => "DepositProcessing") (fun k => k * DEFAULT_WAIT_INTERVAL)
      (.single "tx")
      (fun k => le_of_eq (Nat.succ_mul k DEFAULT_WAIT_INTERVAL).symm) rfl
      (by decide) (fun d _ => rfl) (fun k d _ => rfl),
    timeout_granularity_spec.2.2.1 (fun _ => "UnstakeProcessing")
      (fun _ _ => "UnstakeProcessing") (fun k => k * DEFAULT_WAIT_INTERVAL)
      (.single "tx")
      (fun k => le_of_eq (Nat.succ_mul k DEFAULT_WAIT_INTERVAL).symm) rfl
      (by decide) (fun d _ => rfl) (fun k d _ => rfl),
    timeout_granularity_spec.2.2.2 (fun _ => "WithdrawProcessing")
      (fun _ _ => "WithdrawProcessing") (fun k => k * DEFAULT_WAIT_INTERVAL)
      (.single "tx")
      (fun k => le_of_eq (Nat.succ_mul k DEFAULT_WAIT_INTERVAL).symm) rfl
      (by decide) (fun d _ => rfl) (fun k d _ => rfl)⟩
